import Mathlib

/-!
Verification of the `yumwiz` recipe extractor (`src/yumwiz.py`) against its
natural-language specification.

Python strings are modelled as lists of characters (`Str`).  Pure functions of
the source are translated as Lean functions; raised exceptions are modelled
with `Except Unit` (an `error` value stands for an uncaught Python exception).
Character-level collaborators (`str.lower`, `str.isdigit`, the regex classes
`\s` and `\d`) are modelled on the ASCII range that this program's text
actually uses.
-/

set_option maxRecDepth 8000

namespace Yumwiz

/-- Python strings are modelled as lists of characters. -/
abbrev Str := List Char

/-- Python whitespace as used by `str.strip` and the regex class `\s`
(ASCII part: space, tab, newline, carriage return, vertical tab, form feed). -/
def isSpaceChar (c : Char) : Bool :=
  c == ' ' || c == '\t' || c == '\n' || c == '\r' || c == '\x0b' || c == '\x0c'

/-- ASCII decimal digit, as tested by the regex class `\d` and by
`str.isdigit` on the ASCII text this program manipulates. -/
def isDigitChar (c : Char) : Bool := c.isDigit

/-- Models `str.lower`, restricted to ASCII (the only case-carrying characters in
this program's patterns and inputs). -/
def asciiLower (c : Char) : Char :=
  if 'A' ≤ c && c ≤ 'Z' then Char.ofNat (c.toNat + 32) else c

/-- Models `str.strip()`: remove leading and trailing whitespace. -/
def pyStrip (s : Str) : Str :=
  ((s.dropWhile isSpaceChar).reverse.dropWhile isSpaceChar).reverse

/-- Try each element in order, returning the first success: the ordered-choice
combinator used to express regex backtracking priorities. -/
def firstSome : List α → (α → Option β) → Option β
  | [], _ => none
  | a :: as, f =>
    match f a with
    | some b => some b
    | none => firstSome as f

/-- Tests whether `pat` occurs as a contiguous substring of the second
argument (`re.search` of a literal alternative). -/
def containsSub (pat : Str) : Str → Bool
  | [] => List.isEmpty pat
  | c :: rest => List.isPrefixOf pat (c :: rest) || containsSub pat rest

/- ### Line classifier (`should_ignore`, `should_keep`, `LineAction.from_line`) -/

/-- Models `should_ignore`: `line.startswith("get step by step")`. -/
def should_ignore (line : Str) : Bool :=
  List.isPrefixOf ("get step by step".toList) line

/-- The literal alternatives of the keep pattern
`pinch|handful|salt|(?:(?:freshly cracked black )?pepper)`. -/
def pinchL : Str := "pinch".toList

def handfulL : Str := "handful".toList

def saltL : Str := "salt".toList

def fcbPepperL : Str := "freshly cracked black pepper".toList

def pepperL : Str := "pepper".toList

/-- Models `should_keep`: `re.search` with `re.IGNORECASE` of the alternation
`pinch|handful|salt|(?:(?:freshly cracked black )?pepper)`: some alternative
occurs as a substring of the lowered line (the optional-prefix group
contributes the two literals `freshly cracked black pepper` and `pepper`). -/
def should_keep (line : Str) : Bool :=
  containsSub pinchL (line.map asciiLower) ||
    (containsSub handfulL (line.map asciiLower) ||
      (containsSub saltL (line.map asciiLower) ||
        (containsSub fcbPepperL (line.map asciiLower) ||
          containsSub pepperL (line.map asciiLower))))

inductive LineAction where
  | KEEP
  | IGNORE
  | COMBINE
deriving DecidableEq, Repr

/-- Models `line[:1].isdigit()`: the length-safe one-character slice is non-empty and
a digit exactly when the line starts with a digit. -/
def headIsDigit (line : Str) : Bool :=
  match line with
  | [] => false
  | c :: _ => isDigitChar c

/-- Models `LineAction.from_line`. -/
def LineAction.from_line (line : Str) : LineAction :=
  if headIsDigit line then .KEEP
  else if should_ignore line then .IGNORE
  else if should_keep line then .KEEP
  else .IGNORE

/-- The keep test as the spec words it: case-insensitive substring search for
one of the keep keywords pinch, handful, salt, pepper. -/
def should_keep_spec (line : Str) : Bool :=
  containsSub pinchL (line.map asciiLower) ||
    (containsSub handfulL (line.map asciiLower) ||
      (containsSub saltL (line.map asciiLower) ||
        containsSub pepperL (line.map asciiLower)))

/-- The line classifier as the spec words it (keep keywords only, no
`freshly cracked black pepper` alternative). -/
def from_line_spec (line : Str) : LineAction :=
  if headIsDigit line then .KEEP
  else if should_ignore line then .IGNORE
  else if should_keep_spec line then .KEEP
  else .IGNORE

/- ### Unicode vulgar-fraction normalisation (`replace_vulgar_fractions`) -/

/-- NFKD compatibility decomposition, modelled on the characters this program
manipulates: each vulgar-fraction code point decomposes into its digits around
U+2044 (FRACTION SLASH); the remaining characters occurring here (ASCII and
U+2044 itself) are NFKD-invariant. -/
def nfkdChar (c : Char) : Str :=
  if c = '¼' then ['1', '⁄', '4']
  else if c = '½' then ['1', '⁄', '2']
  else if c = '¾' then ['3', '⁄', '4']
  else if c = '⅐' then ['1', '⁄', '7']
  else if c = '⅑' then ['1', '⁄', '9']
  else if c = '⅒' then ['1', '⁄', '1', '0']
  else if c = '⅓' then ['1', '⁄', '3']
  else if c = '⅔' then ['2', '⁄', '3']
  else if c = '⅕' then ['1', '⁄', '5']
  else if c = '⅖' then ['2', '⁄', '5']
  else if c = '⅗' then ['3', '⁄', '5']
  else if c = '⅘' then ['4', '⁄', '5']
  else if c = '⅙' then ['1', '⁄', '6']
  else if c = '⅚' then ['5', '⁄', '6']
  else if c = '⅛' then ['1', '⁄', '8']
  else if c = '⅜' then ['3', '⁄', '8']
  else if c = '⅝' then ['5', '⁄', '8']
  else if c = '⅞' then ['7', '⁄', '8']
  else [c]

/-- Models `unicodedata.normalize("NFKD", text)` on the modelled character set. -/
def nfkd (s : Str) : Str := s.flatMap nfkdChar

/-- One step of `str.replace`: replace non-overlapping leftmost occurrences of
`pat`.  Fuel-driven so the kernel can evaluate it; fuel equal to the text
length suffices because every step consumes at least one character (all
patterns used here are non-empty). -/
def replaceAllGo (pat rep : Str) : Nat → Str → Str
  | 0, t => t
  | _ + 1, [] => []
  | f + 1, c :: cs =>
    if List.isPrefixOf pat (c :: cs) && !List.isEmpty pat then
      rep ++ replaceAllGo pat rep f ((c :: cs).drop pat.length)
    else
      c :: replaceAllGo pat rep f cs

/-- Models `text.replace(pat, rep)` for a non-empty pattern. -/
def replaceAll (pat rep t : Str) : Str := replaceAllGo pat rep t.length t

/-- The `vulgar_fractions` dictionary, keys NFKD-normalised as in the source,
in insertion order (Python dict iteration order). -/
def vulgar_fractions : List (Str × Str) :=
  [(nfkd ['¼'], "1/4".toList),
   (nfkd ['½'], "1/2".toList),
   (nfkd ['¾'], "3/4".toList),
   (nfkd ['⅐'], "1/7".toList),
   (nfkd ['⅑'], "1/9".toList),
   (nfkd ['⅒'], "1/10".toList),
   (nfkd ['⅓'], "1/3".toList),
   (nfkd ['⅔'], "2/3".toList),
   (nfkd ['⅕'], "1/5".toList),
   (nfkd ['⅖'], "2/5".toList),
   (nfkd ['⅗'], "3/5".toList),
   (nfkd ['⅘'], "4/5".toList),
   (nfkd ['⅙'], "1/6".toList),
   (nfkd ['⅚'], "5/6".toList),
   (nfkd ['⅛'], "1/8".toList),
   (nfkd ['⅜'], "3/8".toList),
   (nfkd ['⅝'], "5/8".toList),
   (nfkd ['⅞'], "7/8".toList)]

/-- Models `replace_vulgar_fractions`: NFKD-normalise the text, then replace each
(NFKD-normalised) vulgar-fraction key by its ASCII `a/b` value. -/
def replace_vulgar_fractions (text : Str) : Str :=
  vulgar_fractions.foldl (fun t kv => replaceAll kv.1 kv.2 t) (nfkd text)

/- ### Ingredient-line extraction (`extract_ingredient_lines`) -/

/-- Fuel-driven worker for `str.splitlines`. -/
def splitNLGo : Nat → Str → List Str
  | 0, _ => []
  | f + 1, s =>
    match s with
    | [] => []
    | _ :: _ =>
      let line := s.takeWhile (fun c => !(c == '\n'))
      match s.drop line.length with
      | [] => [line]
      | _ :: r => line :: splitNLGo f r

/-- Models `str.splitlines()` on `\n` line boundaries (the boundary produced by the
PDF text extraction); no trailing empty line. -/
def splitlinesNL (s : Str) : List Str := splitNLGo (s.length + 1) s

/-- Models `line.strip().lower()` as applied to each raw line. -/
def normalizeLine (l : Str) : Str := (pyStrip l).map asciiLower

/-- Models `ingredients[-1] += " " + line`: append to the last element; on an empty
list Python raises `IndexError`, modelled as `error`. -/
def appendToLast : List Str → Str → Except Unit (List Str)
  | [], _ => .error ()
  | [x], l => .ok [x ++ ' ' :: l]
  | x :: y :: xs, l =>
    match appendToLast (y :: xs) l with
    | .ok ys => .ok (x :: ys)
    | .error e => .error e

/-- The loop body of `extract_ingredient_lines` over the split lines,
accumulating kept lines. -/
def extractLoop : List Str → List Str → Except Unit (List Str)
  | acc, [] => .ok acc
  | acc, l :: ls =>
    match LineAction.from_line (normalizeLine l) with
    | .KEEP => extractLoop (acc ++ [normalizeLine l]) ls
    | .IGNORE => extractLoop acc ls
    | .COMBINE =>
      match appendToLast acc (normalizeLine l) with
      | .ok acc2 => extractLoop acc2 ls
      | .error e => .error e

/-- Models `extract_ingredient_lines`. -/
def extract_ingredient_lines (text : Str) : Except Unit (List Str) :=
  extractLoop [] (splitlinesNL (replace_vulgar_fractions text))

/-- The extraction with the `COMBINE` branch deleted: normalise each split
line and keep exactly the lines classified `KEEP`. -/
def extract_ingredient_lines_keep_only (text : Str) : List Str :=
  ((splitlinesNL (replace_vulgar_fractions text)).map normalizeLine).filter
    (fun l =>
      match LineAction.from_line l with
      | .KEEP => true
      | _ => false)

/- ### Numeric text (`to_fraction` and Python's `Fraction(string)`) -/

/-- Value of a run of ASCII digit characters (`int` on a digit string). -/
def digitsToNat (l : Str) : Nat :=
  l.foldl (fun a c => 10 * a + (c.toNat - 48)) 0

/- Exact rational arithmetic, written with `Rat.divInt`/`mkRat` so the kernel
can evaluate it (the `+`, `*`, `/` of `ℚ` are irreducible); each helper is
proved equal to the corresponding field operation below. -/

/-- Exact rational addition. -/
def qAdd (x y : ℚ) : ℚ :=
  Rat.divInt (x.num * (y.den : ℤ) + y.num * (x.den : ℤ)) ((x.den : ℤ) * (y.den : ℤ))

/-- Exact rational multiplication. -/
def qMul (x y : ℚ) : ℚ :=
  Rat.divInt (x.num * y.num) ((x.den : ℤ) * (y.den : ℤ))

/-- Exact rational division. -/
def qDiv (x y : ℚ) : ℚ :=
  Rat.divInt (x.num * (y.den : ℤ)) ((x.den : ℤ) * y.num)

/-- The rational `10 ^ k`. -/
def qPow10 (k : Nat) : ℚ := mkRat (Int.ofNat (10 ^ k)) 1

/-- Try the pattern `(\d+\s)?(\d)/(\d)` anchored at the start of `s`,
optional group first (the greedy engine order); resolution inside `\d+\s` is
deterministic because a shorter digit run is still followed by a digit, never
by whitespace.  Returns (whole, numerator, denominator); the whole part is `0`
when the optional group is absent (`int(match.group(1) or 0)`). -/
def fracAt (s : Str) : Option (Nat × Nat × Nat) :=
  let ds := s.takeWhile isDigitChar
  let without : Option (Nat × Nat × Nat) :=
    match s with
    | a :: sl :: b :: _ =>
      if isDigitChar a && sl == '/' && isDigitChar b then
        some (0, a.toNat - 48, b.toNat - 48)
      else none
    | _ => none
  if ds.isEmpty then without
  else
    match s.drop ds.length with
    | sp :: a :: sl :: b :: _ =>
      if isSpaceChar sp && isDigitChar a && sl == '/' && isDigitChar b then
        some (digitsToNat ds, a.toNat - 48, b.toNat - 48)
      else without
    | _ => without

/-- Models `re.search(r"(\d+\s)?(\d)/(\d)", s)`: leftmost match, scanning start
positions left to right. -/
def searchMixedFrac : Str → Option (Nat × Nat × Nat)
  | [] => none
  | c :: rest =>
    match fracAt (c :: rest) with
    | some x => some x
    | none => searchMixedFrac rest

/-- Split an optional leading `[-+]` sign (Python `Fraction` string syntax);
returns (negative?, remainder). -/
def splitSign (s : Str) : Bool × Str :=
  match s with
  | [] => (false, s)
  | c :: r => if c == '-' then (true, r) else if c == '+' then (false, r) else (false, s)

/-- The `\s*/\s*\d+` alternative of Python's `Fraction(string)` grammar,
applied after the integer digit run `num`; `none` when the branch does not
match (the decimal branch is then tried) or when the denominator is the
literal zero (ZeroDivisionError — safe to conflate, since whenever this
branch consumes the whole input the decimal branch cannot also match the
leftover `/`). -/
def pyFracSlash (num : Str) (r1 : Str) (neg : Bool) : Option ℚ :=
  match r1.dropWhile isSpaceChar with
  | [] => none
  | c :: rb =>
    if c == '/' then
      let rc := rb.dropWhile isSpaceChar
      let den := rc.takeWhile isDigitChar
      let rest := (rc.drop den.length).dropWhile isSpaceChar
      if den.isEmpty then none
      else if !rest.isEmpty then none
      else if digitsToNat den = 0 then none
      else
        let v : ℚ := qDiv ((digitsToNat num : ℕ) : ℚ) ((digitsToNat den : ℕ) : ℚ)
        some (if neg then -v else v)
    else none

/-- The decimal/exponent alternative `(?:\.(\d*))?(?:E([-+]?\d+))?` of
Python's `Fraction(string)` grammar, followed by the end anchor.  Skipping a
present optional group can never rescue a failed match here (the leftover
`.`/`E` character then fails the end anchor), so each group is taken exactly
when its syntax is present. -/
def pyFracDecimal (num : Str) (r1 : Str) (neg : Bool) : Option ℚ :=
  let decPair : Option Str × Str :=
    match r1 with
    | '.' :: rb => (some (rb.takeWhile isDigitChar), rb.drop (rb.takeWhile isDigitChar).length)
    | _ => (none, r1)
  let r2 := decPair.2
  let expPair : Option ℤ × Str :=
    match r2 with
    | c :: rb =>
      if c == 'e' || c == 'E' then
        let sg := splitSign rb
        let eds := sg.2.takeWhile isDigitChar
        if eds.isEmpty then (none, r2)
        else
          (some (if sg.1 then -(digitsToNat eds : ℤ) else (digitsToNat eds : ℤ)),
            sg.2.drop eds.length)
      else (none, r2)
    | [] => (none, r2)
  if !((expPair.2.dropWhile isSpaceChar).isEmpty) then none
  else
    let base : ℚ :=
      match decPair.1 with
      | none => ((digitsToNat num : ℕ) : ℚ)
      | some d => mkRat (Int.ofNat (digitsToNat (num ++ d))) (10 ^ d.length)
    let scaled : ℚ :=
      match expPair.1 with
      | none => base
      | some e => if 0 ≤ e then qMul base (qPow10 e.toNat) else qDiv base (qPow10 (-e).toNat)
    some (if neg then -scaled else scaled)

/-- The body of `Fraction(string)` after stripping and sign splitting: the
lookahead `(?=\d|\.\d)`, the integer digit run, then the slash alternative
with the decimal alternative as fallback. -/
def pyFracBody (neg : Bool) (s1 : Str) : Option ℚ :=
  let look : Bool :=
    match s1 with
    | c :: r =>
      isDigitChar c ||
        (c == '.' &&
          (match r with
           | d :: _ => isDigitChar d
           | [] => false))
    | [] => false
  if !look then none
  else
    let num := s1.takeWhile isDigitChar
    let r1 := s1.drop num.length
    match pyFracSlash num r1 neg with
    | some v => some v
    | none => pyFracDecimal num r1 neg

/-- Python's `Fraction(string)` constructor: optional surrounding whitespace
and sign, then either `digits`, `digits/digits` (spaces allowed around the
slash), or a decimal literal with optional exponent; the lookahead
`(?=\d|\.\d)` rejects inputs such as `"."` or `"abc"`.  `none` models a
raised `ValueError` (or `ZeroDivisionError` for a zero denominator). -/
def pyFraction (s0 : Str) : Option ℚ :=
  let sg := splitSign (pyStrip s0)
  pyFracBody sg.1 sg.2

/-- Models `to_fraction`: first search for a (possibly mixed) single-digit fraction,
else fall back to `Fraction(string)`; `none` models a raised exception. -/
def to_fraction (s : Str) : Option ℚ :=
  match searchMixedFrac s with
  | some (w, a, b) =>
    if b = 0 then none
    else some (qAdd ((w : ℕ) : ℚ) (mkRat (Int.ofNat a) b))
  | none => pyFraction s

/- ### Ingredient data model -/

structure Ingredient where
  quantity : Option ℚ
  unit : Option Str
  name : Str
  note : Option Str
deriving DecidableEq, Repr

structure Recipe where
  name : Str
  ingredients : List Ingredient
deriving DecidableEq, Repr

/- ### The `parse_ingredient` regex, compiled to an explicit backtracking
matcher.  Each group contributes an ordered list of candidate (capture, rest)
splits, highest backtracking priority first; `firstSome` then realises the
engine's ordered choice. -/

/-- Candidate remainders after `\s+`, greediest first (down to one space). -/
def spacePlusRests (s : Str) : List Str :=
  let m := (s.takeWhile isSpaceChar).length
  (List.range m).map (fun k => s.drop (m - k))

/-- The quantity alternative `(?:\d+\s)?\d/\d`, optional part first; at most
one of the two shapes can match at a given position, and backtracking inside
`\d+\s` is vacuous (a shorter digit run is followed by a digit, not
whitespace). -/
def qtyAlt1 (s : Str) : Option (Str × Str) :=
  let ds := s.takeWhile isDigitChar
  let withPrefix : Option (Str × Str) :=
    if ds.isEmpty then none
    else
      match s.drop ds.length with
      | sp :: a :: sl :: b :: r =>
        if isSpaceChar sp && isDigitChar a && sl == '/' && isDigitChar b then
          some (ds ++ [sp, a, sl, b], r)
        else none
      | _ => none
  match withPrefix with
  | some x => some x
  | none =>
    match s with
    | a :: sl :: b :: r =>
      if isDigitChar a && sl == '/' && isDigitChar b then some ([a, sl, b], r)
      else none
    | _ => none

/-- The quantity alternative `[\d\.]+`; maximal run (a shorter run is
followed by another `[\d.]` character, which can never satisfy the `\s+`
that follows the quantity group). -/
def qtyAlt2 (s : Str) : Option (Str × Str) :=
  let run := s.takeWhile (fun c => isDigitChar c || c == '.')
  if run.isEmpty then none else some (run, s.drop run.length)

/-- Candidates of `(?:(?P<quantity>(?:(?:\d+\s)?\d/\d)|[\d\.]+)\s+)?`:
first alternative, then second, each with the trailing `\s+` from greediest
to one space; the group-absent option last. -/
def quantityCandidates (s : Str) : List (Option Str × Str) :=
  let fromAlt : Option (Str × Str) → List (Option Str × Str) := fun o =>
    match o with
    | none => []
    | some (q, r) => (spacePlusRests r).map (fun r2 => (some q, r2))
  fromAlt (qtyAlt1 s) ++ fromAlt (qtyAlt2 s) ++ [(none, s)]

/-- The unit alternatives, in regex order, each expanded into its literal
spellings in backtracking order (greedy optional suffixes first).  Note the
source's `handfuls?pinch(?:es)?` alternative: a missing `|` fuses `handful`
and `pinch` into the four spellings below, so neither word alone is a unit. -/
def unitAltSpellings : List (List Str) :=
  [["tsp".toList],
   ["tbsp".toList],
   ["teaspoons".toList, "teaspoon".toList],
   ["tablespoons".toList, "tablespoon".toList],
   ["cups".toList, "cup".toList],
   ["ounces".toList, "ounce".toList],
   ["oz".toList],
   ["lbs".toList, "lb".toList],
   ["g".toList],
   ["ml".toList],
   ["kg".toList],
   ["bunches".toList, "bunch".toList],
   ["cans".toList, "can".toList],
   ["cloves".toList, "clove".toList],
   ["handfulspinches".toList, "handfulspinch".toList,
    "handfulpinches".toList, "handfulpinch".toList],
   ["pounds".toList, "pound".toList],
   ["pieces".toList, "piece".toList],
   ["packages".toList, "package".toList]]

/-- Candidates of `(?:(?P<unit>...)\.?\s+)?`: each spelling in order, then
the optional dot (present first), then `\s+` greediest first; the
group-absent option last. -/
def unitCandidates (s : Str) : List (Option Str × Str) :=
  let perSpelling : Str → List (Option Str × Str) := fun u =>
    if List.isPrefixOf u s then
      let r := s.drop u.length
      let dotRests : List Str :=
        (match r with
         | '.' :: r2 => [r2]
         | _ => []) ++ [r]
      (dotRests.flatMap spacePlusRests).map (fun r2 => (some u, r2))
    else []
  (unitAltSpellings.flatMap (fun grp => grp.flatMap perSpelling)) ++ [(none, s)]

/-- The optional note group `(?:.\s*(?P<notes>[^)]+))?` at the position after
the ingredient name: one any-but-newline character, `\s*` greediest first,
then a maximal non-empty run of non-`)` characters (nothing follows the
group, so the engine keeps the maximal run).  `none` when the group cannot
match (note absent). -/
def notesCandidate (r : Str) : Option Str :=
  match r with
  | [] => none
  | c :: r2 =>
    if c == '\n' then none
    else
      let m := (r2.takeWhile isSpaceChar).length
      firstSome ((List.range (m + 1)).map (fun k => r2.drop (m - k))) (fun r3 =>
        let run := r3.takeWhile (fun d => !(d == ')'))
        if run.isEmpty then none else some run)

/-- Models `re.match` of the full verbose ingredient pattern: quantity group, unit
group, required name `[^,(]+` (maximal — nothing later can fail the match),
optional note. -/
def reMatchIngredient (s : Str) :
    Option (Option Str × Option Str × Str × Option Str) :=
  firstSome (quantityCandidates s) (fun q =>
    firstSome (unitCandidates q.2) (fun u =>
      let ing := u.2.takeWhile (fun c => !(c == ',' || c == '('))
      if ing.isEmpty then none
      else some (q.1, u.1, ing, notesCandidate (u.2.drop ing.length))))

/-- Models `parse_ingredient`: on a regex match, build the `Ingredient` (converting
the quantity text with `to_fraction`, which can raise — modelled as `error`);
on no match, print a diagnostic and return `None` (modelled `ok none`). -/
def parse_ingredient (s : Str) : Except Unit (Option Ingredient) :=
  match reMatchIngredient s with
  | none => .ok none
  | some (q, u, ing, nt) =>
    match q with
    | none => .ok (some ⟨none, u, pyStrip ing, nt⟩)
    | some qs =>
      match to_fraction qs with
      | some f => .ok (some ⟨some f, u, pyStrip ing, nt⟩)
      | none => .error ()

/-- The loop of `parse_ingredients` over the kept lines: parse each line,
skip `None` results, propagate exceptions. -/
def parseLines : List Str → Except Unit (List Ingredient)
  | [] => .ok []
  | l :: ls =>
    match parse_ingredient l with
    | .error e => .error e
    | .ok none => parseLines ls
    | .ok (some i) =>
      match parseLines ls with
      | .error e => .error e
      | .ok is => .ok (i :: is)

/-- Models `parse_ingredients`. -/
def parse_ingredients (text : Str) : Except Unit (List Ingredient) :=
  match extract_ingredient_lines text with
  | .error e => .error e
  | .ok lines => if lines.isEmpty then .ok [] else parseLines lines

/- ### The JSON cache (`to_dict`/`from_dict`, `dump_json`/`read_json`) -/

/-- The ASCII digit character of `n % 10`. -/
def digitChar (n : Nat) : Char := Char.ofNat (48 + n % 10)

/-- Fuel-driven decimal-digit printer, most significant digit first; fuel
`n + 1` suffices since the value shrinks strictly at each step. -/
def natStrGo : Nat → Nat → Str
  | 0, _ => []
  | f + 1, n => if n < 10 then [digitChar n] else natStrGo f (n / 10) ++ [digitChar (n % 10)]

/-- Decimal digits of a natural number (`str` of a nonnegative `int`). -/
def natStr (n : Nat) : Str := natStrGo (n + 1) n

/-- Models `str` of a Python `int`. -/
def intStr (i : ℤ) : Str :=
  if i < 0 then '-' :: natStr i.natAbs else natStr i.natAbs

/-- Models `str` of a Python `Fraction`: `num` when the denominator is 1, else
`num/den` (`Fraction.__str__`). -/
def fractionStr (q : ℚ) : Str :=
  if q.den = 1 then intStr q.num else intStr q.num ++ '/' :: natStr q.den

/-- Models `str(self.quantity)` in `Ingredient.to_dict`: the literal string `None`
for an absent quantity. -/
def quantityStr : Option ℚ → Str
  | none => "None".toList
  | some q => fractionStr q

/-- The dictionary written for one ingredient (the JSON object; JSON text
encoding itself is the external collaborator). -/
structure IngredientDict where
  quantity : Str
  unit : Option Str
  name : Str
  note : Option Str
deriving DecidableEq, Repr

/-- Models `Ingredient.to_dict`. -/
def Ingredient.to_dict (i : Ingredient) : IngredientDict :=
  ⟨quantityStr i.quantity, i.unit, i.name, i.note⟩

/-- Models `Ingredient.from_dict`: `Fraction(data["quantity"])` is applied
unconditionally, so an unparsable quantity string raises (`error`). -/
def Ingredient.from_dict (d : IngredientDict) : Except Unit Ingredient :=
  match pyFraction d.quantity with
  | some q => .ok ⟨some q, d.unit, d.name, d.note⟩
  | none => .error ()

/-- The dictionary written for one recipe. -/
structure RecipeDict where
  name : Str
  ingredients : List IngredientDict
deriving DecidableEq, Repr

/-- Models `Recipe.to_dict`. -/
def Recipe.to_dict (r : Recipe) : RecipeDict :=
  ⟨r.name, r.ingredients.map Ingredient.to_dict⟩

/-- Apply a fallible function to each element in order, propagating the first
raised exception (a Python list comprehension over a raising function). -/
def mapExcept (f : α → Except Unit β) : List α → Except Unit (List β)
  | [] => .ok []
  | a :: as =>
    match f a with
    | .error e => .error e
    | .ok b =>
      match mapExcept f as with
      | .error e => .error e
      | .ok bs => .ok (b :: bs)

/-- Models `Recipe.from_dict`. -/
def Recipe.from_dict (d : RecipeDict) : Except Unit Recipe :=
  match mapExcept Ingredient.from_dict d.ingredients with
  | .ok is => .ok ⟨d.name, is⟩
  | .error e => .error e

/-- Models `dump_json`: the list of dictionaries serialised into the cache file. -/
def dump_json (rs : List Recipe) : List RecipeDict := rs.map Recipe.to_dict

/-- Models `read_json`: rebuild the recipes from the cached dictionaries,
propagating any exception raised by `from_dict`. -/
def read_json (ds : List RecipeDict) : Except Unit (List Recipe) :=
  mapExcept Recipe.from_dict ds

/- ### Recipe-block extraction (`parse_text`) -/

/-- The weekday alternatives of the block pattern, in alternation order. -/
def weekdays : List Str :=
  ["MONDAY".toList, "TUESDAY".toList, "WEDNESDAY".toList, "THURSDAY".toList,
   "FRIDAY".toList, "SATURDAY".toList, "SUNDAY".toList]

/-- Try the weekday alternatives as prefixes of `s`, in order. -/
def matchWeekday (s : Str) : Option (Str × Str) :=
  firstSome weekdays (fun w =>
    if List.isPrefixOf w s then some (w, s.drop w.length) else none)

/-- The `[A-Z\s]` character class of the title group. -/
def isNameRunChar (c : Char) : Bool := ('A' ≤ c && c ≤ 'Z') || isSpaceChar c

/-- Split a string at the first occurrence of `pat`: the lazy `.*?pat` step
under `re.DOTALL` (any character, newlines included).  Returns the text
before the occurrence and the text after it. -/
def splitFirstOcc (pat : Str) : Str → Option (Str × Str)
  | [] => if List.isEmpty pat then some ([], []) else none
  | c :: rest =>
    if List.isPrefixOf pat (c :: rest) then some ([], (c :: rest).drop pat.length)
    else
      match splitFirstOcc pat rest with
      | some (pre, post) => some (c :: pre, post)
      | none => none

/-- Match the recipe-block pattern anchored at `s`: a weekday, a newline, the
greedy `[A-Z\s]+` title run backtracking (longest first) to a feasible
`\nSERVINGS`, then lazy `.*?INGREDIENTS(.*?)INSTRUCTIONS`.  Returns the
(title group, ingredients group) captures and the rest of the text after the
match.  When the first `INGREDIENTS` after `SERVINGS` has no following
`INSTRUCTIONS`, later occurrences (further right) cannot have one either, so
one `splitFirstOcc` per marker realises the engine's search. -/
def matchBlockAt (s : Str) : Option ((Str × Str) × Str) :=
  match matchWeekday s with
  | none => none
  | some (_, r0) =>
    match r0 with
    | [] => none
    | c :: r1 =>
      if c == '\n' then
        let m := (r1.takeWhile isNameRunChar).length
        firstSome ((List.range m).map (fun k => m - k)) (fun len =>
          if List.isPrefixOf ("\nSERVINGS".toList) (r1.drop len) then
            match splitFirstOcc ("INGREDIENTS".toList)
                ((r1.drop len).drop ("\nSERVINGS".toList).length) with
            | none => none
            | some (_, afterIng) =>
              match splitFirstOcc ("INSTRUCTIONS".toList) afterIng with
              | none => none
              | some (ingText, rest) => some ((r1.take len, ingText), rest)
          else none)
      else none

/-- Fuel-driven `re.finditer` scan: try a match at every position, left to
right, continuing after each match; fuel equal to the text length suffices
because every step strictly shortens the remaining text. -/
def finditerGo : Nat → Str → List (Str × Str)
  | 0, _ => []
  | f + 1, s =>
    match s with
    | [] => []
    | _ :: rest =>
      match matchBlockAt s with
      | some (b, after) => b :: finditerGo f after
      | none => finditerGo f rest

/-- All non-overlapping recipe-block matches, in document order. -/
def finditerBlocks (s : Str) : List (Str × Str) := finditerGo s.length s

/-- Fuel-driven worker for `re.sub(r"\s+", " ", s)`. -/
def collapseWSGo : Nat → Str → Str
  | 0, _ => []
  | _ + 1, [] => []
  | f + 1, c :: r =>
    if isSpaceChar c then ' ' :: collapseWSGo f (r.dropWhile isSpaceChar)
    else c :: collapseWSGo f r

/-- Models `re.sub(r"\s+", " ", s)`: each maximal whitespace run becomes a single
space. -/
def collapseWS (s : Str) : Str := collapseWSGo s.length s

/-- Models `parse_text` (without the optional cache write, an I/O side effect):
for each block match in document order, build a `Recipe` from the
whitespace-collapsed stripped title and the parsed ingredients section;
exceptions raised while parsing ingredients propagate. -/
def parse_text (text : Str) : Except Unit (List Recipe) :=
  mapExcept
    (fun b =>
      match parse_ingredients (pyStrip b.2) with
      | .error e => .error e
      | .ok is => .ok (⟨collapseWS (pyStrip b.1), is⟩ : Recipe))
    (finditerBlocks text)

/- ### Substring lemmas for the classifier refinement -/

theorem containsSub_of_isPrefixOf (pat s : Str) (h : List.isPrefixOf pat s = true) :
    containsSub pat s = true := by
  cases s with
  | nil =>
    cases pat with
    | nil => rfl
    | cons a as => simp [List.isPrefixOf] at h
  | cons c r => simp [containsSub, h]

theorem isPrefixOf_append_self (p : Str) : ∀ t : Str, List.isPrefixOf p (p ++ t) = true := by
  induction p with
  | nil => intro t; simp [List.isPrefixOf]
  | cons a as ih => intro t; simp [List.isPrefixOf, ih]

theorem isPrefixOf_exists_append (p : Str) :
    ∀ s : Str, List.isPrefixOf p s = true → ∃ t, s = p ++ t := by
  induction p with
  | nil => exact fun s _ => ⟨s, rfl⟩
  | cons a as ih =>
    intro s h
    cases s with
    | nil => simp [List.isPrefixOf] at h
    | cons c r =>
      simp only [List.isPrefixOf, Bool.and_eq_true] at h
      obtain ⟨t, ht⟩ := ih r h.2
      exact ⟨t, by simp [ht, (eq_of_beq h.1).symm]⟩

theorem containsSub_append_right (pat : Str) :
    ∀ a b : Str, containsSub pat b = true → containsSub pat (a ++ b) = true := by
  intro a
  induction a with
  | nil => simp
  | cons c r ih =>
    intro b h
    simp only [List.cons_append, containsSub, Bool.or_eq_true]
    exact Or.inr (ih b h)

theorem fcbPepper_implies_pepper :
    ∀ l : Str, containsSub fcbPepperL l = true → containsSub pepperL l = true := by
  intro l
  induction l with
  | nil => intro h; exact absurd h (by decide)
  | cons c r ih =>
    intro h
    have h' : List.isPrefixOf fcbPepperL (c :: r) = true ∨ containsSub fcbPepperL r = true := by
      simpa only [containsSub, Bool.or_eq_true] using h
    rcases h' with hp | hr
    · obtain ⟨t, ht⟩ := isPrefixOf_exists_append _ _ hp
      have hdec : fcbPepperL = "freshly cracked black ".toList ++ pepperL := by decide
      rw [ht, hdec, List.append_assoc]
      exact containsSub_append_right _ _ _
        (containsSub_of_isPrefixOf _ _ (isPrefixOf_append_self _ _))
    · have hpr := ih hr
      simp [containsSub, hpr]

theorem should_keep_eq (line : Str) : should_keep line = should_keep_spec line := by
  unfold should_keep should_keep_spec
  cases hf : containsSub fcbPepperL (line.map asciiLower) with
  | false => simp [hf]
  | true =>
    have hp := fcbPepper_implies_pepper _ hf
    simp [hf, hp]

theorem from_line_ne_combine (line : Str) : LineAction.from_line line ≠ .COMBINE := by
  unfold LineAction.from_line
  split
  · decide
  · split
    · decide
    · split <;> decide

theorem extractLoop_eq (ls : List Str) :
    ∀ acc : List Str,
      extractLoop acc ls =
        .ok (acc ++ (ls.map normalizeLine).filter
          (fun l =>
            match LineAction.from_line l with
            | .KEEP => true
            | _ => false)) := by
  induction ls with
  | nil => intro acc; simp [extractLoop]
  | cons l ls ih =>
    intro acc
    unfold extractLoop
    cases h : LineAction.from_line (normalizeLine l) with
    | KEEP => simp [List.filter_cons, h, ih]
    | IGNORE => simp [List.filter_cons, h, ih]
    | COMBINE => exact absurd h (from_line_ne_combine _)

theorem pyStrip_all_space (l : Str) (h : ∀ c ∈ l, isSpaceChar c = true) :
    pyStrip l = [] := by
  unfold pyStrip
  have h1 : l.dropWhile isSpaceChar = [] := by
    induction l with
    | nil => rfl
    | cons c r ih =>
      have hc : isSpaceChar c = true := h c (List.mem_cons_self c r)
      simp only [List.dropWhile, hc]
      exact ih fun d hd => h d (List.mem_cons_of_mem c hd)
  rw [h1]
  rfl

/-- C4: for every line, the classifier returns KEEP when the line starts with
a digit; otherwise IGNORE when it starts with the boilerplate phrase
"get step by step"; otherwise KEEP when the lowered line contains one of the
keep keywords pinch, handful, salt or pepper as a substring; otherwise IGNORE
(the regex alternative `freshly cracked black pepper` is subsumed by
`pepper`). -/
theorem claim_C4_line_classifier (line : Str) :
    LineAction.from_line line = from_line_spec line := by
  unfold LineAction.from_line from_line_spec
  rw [should_keep_eq]

/-- C8: the COMBINE classification is unreachable — `LineAction.from_line`
only ever returns KEEP or IGNORE — and consequently `extract_ingredient_lines`
coincides, on every input text, with the variant whose combine branch
(append to the previous kept line) is deleted. -/
theorem claim_C8_combine_unreachable :
    (∀ line : Str, LineAction.from_line line ≠ .COMBINE) ∧
      (∀ text : Str,
        extract_ingredient_lines text = .ok (extract_ingredient_lines_keep_only text)) := by
  refine ⟨from_line_ne_combine, fun text => ?_⟩
  unfold extract_ingredient_lines extract_ingredient_lines_keep_only
  rw [extractLoop_eq]
  simp

/-- C9: each supported vulgar-fraction glyph is rewritten to its correct ASCII
`a/b` string, and the compatibility-decomposed form of the glyph (digits
around U+2044) is rewritten to the same string, since NFKD is applied to both
the text and the lookup keys. -/
theorem claim_C9_vulgar_fractions :
    (replace_vulgar_fractions ['¼'] = "1/4".toList ∧
      replace_vulgar_fractions ['1', '⁄', '4'] = "1/4".toList) ∧
    (replace_vulgar_fractions ['½'] = "1/2".toList ∧
      replace_vulgar_fractions ['1', '⁄', '2'] = "1/2".toList) ∧
    (replace_vulgar_fractions ['¾'] = "3/4".toList ∧
      replace_vulgar_fractions ['3', '⁄', '4'] = "3/4".toList) ∧
    (replace_vulgar_fractions ['⅐'] = "1/7".toList ∧
      replace_vulgar_fractions ['1', '⁄', '7'] = "1/7".toList) ∧
    (replace_vulgar_fractions ['⅑'] = "1/9".toList ∧
      replace_vulgar_fractions ['1', '⁄', '9'] = "1/9".toList) ∧
    (replace_vulgar_fractions ['⅒'] = "1/10".toList ∧
      replace_vulgar_fractions ['1', '⁄', '1', '0'] = "1/10".toList) ∧
    (replace_vulgar_fractions ['⅓'] = "1/3".toList ∧
      replace_vulgar_fractions ['1', '⁄', '3'] = "1/3".toList) ∧
    (replace_vulgar_fractions ['⅔'] = "2/3".toList ∧
      replace_vulgar_fractions ['2', '⁄', '3'] = "2/3".toList) ∧
    (replace_vulgar_fractions ['⅕'] = "1/5".toList ∧
      replace_vulgar_fractions ['1', '⁄', '5'] = "1/5".toList) ∧
    (replace_vulgar_fractions ['⅖'] = "2/5".toList ∧
      replace_vulgar_fractions ['2', '⁄', '5'] = "2/5".toList) ∧
    (replace_vulgar_fractions ['⅗'] = "3/5".toList ∧
      replace_vulgar_fractions ['3', '⁄', '5'] = "3/5".toList) ∧
    (replace_vulgar_fractions ['⅘'] = "4/5".toList ∧
      replace_vulgar_fractions ['4', '⁄', '5'] = "4/5".toList) ∧
    (replace_vulgar_fractions ['⅙'] = "1/6".toList ∧
      replace_vulgar_fractions ['1', '⁄', '6'] = "1/6".toList) ∧
    (replace_vulgar_fractions ['⅚'] = "5/6".toList ∧
      replace_vulgar_fractions ['5', '⁄', '6'] = "5/6".toList) ∧
    (replace_vulgar_fractions ['⅛'] = "1/8".toList ∧
      replace_vulgar_fractions ['1', '⁄', '8'] = "1/8".toList) ∧
    (replace_vulgar_fractions ['⅜'] = "3/8".toList ∧
      replace_vulgar_fractions ['3', '⁄', '8'] = "3/8".toList) ∧
    (replace_vulgar_fractions ['⅝'] = "5/8".toList ∧
      replace_vulgar_fractions ['5', '⁄', '8'] = "5/8".toList) ∧
    (replace_vulgar_fractions ['⅞'] = "7/8".toList ∧
      replace_vulgar_fractions ['7', '⁄', '8'] = "7/8".toList) := by
  decide

/-- C10: `LineAction.from_line` is total; a whitespace-only line (which after
stripping and lowering is empty) is classified IGNORE, the empty line
included, because the one-character slice `line[:1]` is length-safe. -/
theorem claim_C10_blank_line_ignored (line : Str)
    (h : ∀ c ∈ line, isSpaceChar c = true) :
    LineAction.from_line (normalizeLine line) = .IGNORE := by
  have hs : normalizeLine line = [] := by
    unfold normalizeLine
    rw [pyStrip_all_space line h]
    rfl
  rw [hs]
  decide

/-- C10 witness: the concrete whitespace-only line of two spaces. -/
theorem claim_C10_witness :
    (∀ c ∈ "  ".toList, isSpaceChar c = true) ∧
      LineAction.from_line (normalizeLine ("  ".toList)) = .IGNORE :=
  ⟨by decide, claim_C10_blank_line_ignored _ (by decide)⟩

theorem num_eq_self_mul_den (x : ℚ) : (x.num : ℚ) = x * (x.den : ℚ) := by
  have hx : (x.den : ℚ) ≠ 0 := by exact_mod_cast x.den_nz
  exact (div_eq_iff hx).mp (Rat.num_div_den x)

theorem qAdd_eq (x y : ℚ) : qAdd x y = x + y := by
  unfold qAdd
  rw [Rat.divInt_eq_div]
  have hx : (x.den : ℚ) ≠ 0 := by exact_mod_cast x.den_nz
  have hy : (y.den : ℚ) ≠ 0 := by exact_mod_cast y.den_nz
  push_cast
  rw [div_eq_iff (mul_ne_zero hx hy), num_eq_self_mul_den x, num_eq_self_mul_den y]
  ring

theorem qMul_eq (x y : ℚ) : qMul x y = x * y := by
  unfold qMul
  rw [Rat.divInt_eq_div]
  have hx : (x.den : ℚ) ≠ 0 := by exact_mod_cast x.den_nz
  have hy : (y.den : ℚ) ≠ 0 := by exact_mod_cast y.den_nz
  push_cast
  rw [div_eq_iff (mul_ne_zero hx hy), num_eq_self_mul_den x, num_eq_self_mul_den y]
  ring

theorem qDiv_eq (x y : ℚ) : qDiv x y = x / y := by
  unfold qDiv
  rw [Rat.divInt_eq_div]
  have hx : (x.den : ℚ) ≠ 0 := by exact_mod_cast x.den_nz
  have hy : (y.den : ℚ) ≠ 0 := by exact_mod_cast y.den_nz
  by_cases hn : y.num = 0
  · have hy0 : y = 0 := by
      have := Rat.num_div_den y
      rw [hn] at this
      simpa using this.symm
    subst hy0
    simp
  · have hnq : (y.num : ℚ) ≠ 0 := by exact_mod_cast hn
    have hyne : y ≠ 0 := by
      intro h0
      exact hn (by simp [h0])
    push_cast
    rw [div_eq_iff (mul_ne_zero hx hnq)]
    field_simp
    rw [num_eq_self_mul_den x, num_eq_self_mul_den y]
    ring

theorem qPow10_eq (k : Nat) : qPow10 k = (10 : ℚ) ^ k := by
  unfold qPow10
  rw [Rat.mkRat_eq_div]
  push_cast
  simp

/-- C3: the quantity parser returns exact rationals on the spec's examples —
`"1 1/2"` gives 3/2, `"3/4"` gives 3/4, `"2"` gives 2 — and fails (signals
unparsable) on `"abc"`, which matches neither form. -/
theorem claim_C3_to_fraction :
    to_fraction ("1 1/2".toList) = some (mkRat 3 2) ∧
      to_fraction ("3/4".toList) = some (mkRat 3 4) ∧
      to_fraction ("2".toList) = some 2 ∧
      to_fraction ("abc".toList) = none := by
  refine ⟨by decide, by decide, by decide, by decide⟩

/-- C5: the spec's ingredient-line examples — `"2 cups chopped onion, diced"`
parses to quantity 2, unit `cups`, name `chopped onion`, note `diced`;
`"1/2 tsp salt"` to quantity 1/2, unit `tsp`, name `salt`, no note; and a
line with no leading number, `"salt to taste"`, has no quantity and no unit
and the whole line as its name. -/
theorem claim_C5_parse_ingredient_examples :
    parse_ingredient ("2 cups chopped onion, diced".toList) =
        .ok (some ⟨some 2, some ("cups".toList), "chopped onion".toList, some ("diced".toList)⟩) ∧
      parse_ingredient ("1/2 tsp salt".toList) =
        .ok (some ⟨some (mkRat 1 2), some ("tsp".toList), "salt".toList, none⟩) ∧
      parse_ingredient ("salt to taste".toList) =
        .ok (some ⟨none, none, "salt to taste".toList, none⟩) :=
  ⟨rfl, rfl, rfl⟩

/-- C6: the unit vocabulary is recognised for the spellings the regex really
contains (tsp, tbsp, teaspoon(s), tablespoon(s), cup(s), ounce(s), oz,
lb(s), g, ml, kg, bunch(es), can(s), clove(s), pound(s), piece(s),
package(s)) — but, contrary to the claim, `pinch` and `handfuls` are NOT
recognised as units: the regex alternative `handfuls?pinch(?:es)?` lacks an
alternation bar, so `"1 pinch salt"` parses with no unit and name
`pinch salt`, and `"2 handfuls spinach"` with no unit and name
`handfuls spinach`. -/
theorem claim_C6_unit_vocabulary :
    parse_ingredient ("1 pinch salt".toList) =
        .ok (some ⟨some 1, none, "pinch salt".toList, none⟩) ∧
      parse_ingredient ("2 handfuls spinach".toList) =
        .ok (some ⟨some 2, none, "handfuls spinach".toList, none⟩) ∧
      parse_ingredient ("1 tsp salt".toList) =
        .ok (some ⟨some 1, some ("tsp".toList), "salt".toList, none⟩) ∧
      parse_ingredient ("1 tbsp honey".toList) =
        .ok (some ⟨some 1, some ("tbsp".toList), "honey".toList, none⟩) ∧
      parse_ingredient ("1 teaspoon sugar".toList) =
        .ok (some ⟨some 1, some ("teaspoon".toList), "sugar".toList, none⟩) ∧
      parse_ingredient ("2 tablespoons oil".toList) =
        .ok (some ⟨some 2, some ("tablespoons".toList), "oil".toList, none⟩) ∧
      parse_ingredient ("2 cups flour".toList) =
        .ok (some ⟨some 2, some ("cups".toList), "flour".toList, none⟩) ∧
      parse_ingredient ("2 ounces rum".toList) =
        .ok (some ⟨some 2, some ("ounces".toList), "rum".toList, none⟩) ∧
      parse_ingredient ("3 oz cheese".toList) =
        .ok (some ⟨some 3, some ("oz".toList), "cheese".toList, none⟩) ∧
      parse_ingredient ("1 lb butter".toList) =
        .ok (some ⟨some 1, some ("lb".toList), "butter".toList, none⟩) ∧
      parse_ingredient ("2 lbs beef".toList) =
        .ok (some ⟨some 2, some ("lbs".toList), "beef".toList, none⟩) ∧
      parse_ingredient ("1 g salt".toList) =
        .ok (some ⟨some 1, some ("g".toList), "salt".toList, none⟩) ∧
      parse_ingredient ("50 ml milk".toList) =
        .ok (some ⟨some 50, some ("ml".toList), "milk".toList, none⟩) ∧
      parse_ingredient ("1 kg rice".toList) =
        .ok (some ⟨some 1, some ("kg".toList), "rice".toList, none⟩) ∧
      parse_ingredient ("2 bunches kale".toList) =
        .ok (some ⟨some 2, some ("bunches".toList), "kale".toList, none⟩) ∧
      parse_ingredient ("2 cans beans".toList) =
        .ok (some ⟨some 2, some ("cans".toList), "beans".toList, none⟩) ∧
      parse_ingredient ("1 clove garlic".toList) =
        .ok (some ⟨some 1, some ("clove".toList), "garlic".toList, none⟩) ∧
      parse_ingredient ("2 pounds pork".toList) =
        .ok (some ⟨some 2, some ("pounds".toList), "pork".toList, none⟩) ∧
      parse_ingredient ("3 pieces bread".toList) =
        .ok (some ⟨some 3, some ("pieces".toList), "bread".toList, none⟩) ∧
      parse_ingredient ("1 package tofu".toList) =
        .ok (some ⟨some 1, some ("package".toList), "tofu".toList, none⟩) :=
  ⟨rfl, rfl, rfl, rfl, rfl, rfl, rfl, rfl, rfl, rfl,
    rfl, rfl, rfl, rfl, rfl, rfl, rfl, rfl, rfl, rfl⟩

/- ### Round-trip lemmas -/

theorem digitChar_spec (n : Nat) (h : n < 10) :
    (digitChar n).toNat = 48 + n ∧ isDigitChar (digitChar n) = true := by
  interval_cases n <;> exact ⟨by decide, by decide⟩

theorem digitsToNat_append_one (a : Str) (c : Char) :
    digitsToNat (a ++ [c]) = 10 * digitsToNat a + (c.toNat - 48) := by
  unfold digitsToNat
  rw [List.foldl_append]
  rfl

theorem natStrGo_spec :
    ∀ f n, n < f →
      digitsToNat (natStrGo f n) = n ∧
        (∀ c ∈ natStrGo f n, isDigitChar c = true) ∧ natStrGo f n ≠ [] := by
  intro f
  induction f with
  | zero => intro n hn; exact absurd hn (Nat.not_lt_zero n)
  | succ f ih =>
    intro n hn
    by_cases h10 : n < 10
    · simp only [natStrGo, if_pos h10]
      refine ⟨?_, ?_, by simp⟩
      · show digitsToNat ([] ++ [digitChar n]) = n
        rw [digitsToNat_append_one, (digitChar_spec n h10).1]
        simp [digitsToNat]
      · intro c hc
        simp only [List.mem_singleton] at hc
        subst hc
        exact (digitChar_spec n h10).2
    · have hn10 : 10 ≤ n := Nat.le_of_not_lt h10
      have hdiv : n / 10 < f := by
        have h1 : n / 10 < n := Nat.div_lt_self (by omega) (by omega)
        omega
      obtain ⟨ihv, ihd, ihne⟩ := ih (n / 10) hdiv
      have hm : n % 10 < 10 := Nat.mod_lt n (by omega)
      simp only [natStrGo, if_neg h10]
      refine ⟨?_, ?_, by simp⟩
      · rw [digitsToNat_append_one, ihv, (digitChar_spec (n % 10) hm).1]
        omega
      · intro c hc
        rcases List.mem_append.mp hc with h | h
        · exact ihd c h
        · simp only [List.mem_singleton] at h
          subst h
          exact (digitChar_spec (n % 10) hm).2

theorem natStr_spec (n : Nat) :
    digitsToNat (natStr n) = n ∧
      (∀ c ∈ natStr n, isDigitChar c = true) ∧ natStr n ≠ [] :=
  natStrGo_spec (n + 1) n (Nat.lt_succ_self n)

theorem beq_false_of_digit {c : Char} (d : Char) (hc : isDigitChar c = true)
    (hd : isDigitChar d = false) : (c == d) = false := by
  cases h : c == d with
  | false => rfl
  | true =>
    have he : c = d := eq_of_beq h
    subst he
    rw [hc] at hd
    exact absurd hd (by simp)

theorem digit_not_space {c : Char} (h : isDigitChar c = true) :
    isSpaceChar c = false := by
  unfold isSpaceChar
  rw [beq_false_of_digit ' ' h (by decide), beq_false_of_digit '\t' h (by decide),
    beq_false_of_digit '\n' h (by decide), beq_false_of_digit '\r' h (by decide),
    beq_false_of_digit '\x0b' h (by decide), beq_false_of_digit '\x0c' h (by decide)]
  rfl

theorem takeWhile_all {p : Char → Bool} :
    ∀ l : Str, (∀ c ∈ l, p c = true) → l.takeWhile p = l := by
  intro l
  induction l with
  | nil => intro _; rfl
  | cons c r ih =>
    intro h
    have hc := h c (List.mem_cons_self c r)
    simp only [List.takeWhile_cons, hc, if_true]
    rw [ih fun d hd => h d (List.mem_cons_of_mem c hd)]

theorem dropWhile_self_of_head {p : Char → Bool} (l : Str)
    (h : ∀ c ∈ l, p c = false) : l.dropWhile p = l := by
  cases l with
  | nil => rfl
  | cons c r => simp [List.dropWhile_cons, h c (List.mem_cons_self c r)]

theorem pyStrip_no_space (l : Str) (h : ∀ c ∈ l, isSpaceChar c = false) :
    pyStrip l = l := by
  unfold pyStrip
  rw [dropWhile_self_of_head l h,
    dropWhile_self_of_head l.reverse (fun c hc => h c (List.mem_reverse.mp hc))]
  exact List.reverse_reverse l

theorem drop_len_append (a b : Str) : (a ++ b).drop a.length = b := by
  induction a with
  | nil => rfl
  | cons c r ih => simp [ih]

theorem takeWhile_append_all {p : Char → Bool} :
    ∀ a b : Str, (∀ c ∈ a, p c = true) →
      (a ++ b).takeWhile p = a ++ b.takeWhile p := by
  intro a
  induction a with
  | nil => intro b _; rfl
  | cons c r ih =>
    intro b h
    have hc := h c (List.mem_cons_self c r)
    simp only [List.cons_append, List.takeWhile_cons, hc, if_true]
    rw [ih b fun d hd => h d (List.mem_cons_of_mem c hd)]

theorem splitSign_digit (c : Char) (r : Str) (h : isDigitChar c = true) :
    splitSign (c :: r) = (false, c :: r) := by
  simp only [splitSign]
  rw [beq_false_of_digit '-' h (by decide), beq_false_of_digit '+' h (by decide)]
  simp

theorem splitSign_neg (t : Str) : splitSign ('-' :: t) = (true, t) := rfl

theorem pyFracBody_digits (neg : Bool) (N : Str)
    (hall : ∀ c ∈ N, isDigitChar c = true) (hne : N ≠ []) :
    pyFracBody neg N =
      some (if neg then -((digitsToNat N : ℕ) : ℚ) else ((digitsToNat N : ℕ) : ℚ)) := by
  obtain ⟨c, r, rfl⟩ : ∃ c r, N = c :: r := by
    cases N with
    | nil => exact absurd rfl hne
    | cons c r => exact ⟨c, r, rfl⟩
  have hc : isDigitChar c = true := hall c (List.mem_cons_self c r)
  have htake : (c :: r).takeWhile isDigitChar = c :: r := takeWhile_all _ hall
  simp only [pyFracBody, pyFracSlash, pyFracDecimal, hc, Bool.true_or, Bool.not_true,
    htake, List.drop_length, List.dropWhile_nil, List.isEmpty_nil, Bool.false_eq_true,
    if_false]

theorem pyFracBody_slash (neg : Bool) (N D : Str)
    (hN : ∀ c ∈ N, isDigitChar c = true) (hNne : N ≠ [])
    (hD : ∀ c ∈ D, isDigitChar c = true) (hDne : D ≠ [])
    (hD0 : digitsToNat D ≠ 0) :
    pyFracBody neg (N ++ '/' :: D) =
      some (if neg then -(qDiv ((digitsToNat N : ℕ) : ℚ) ((digitsToNat D : ℕ) : ℚ))
            else qDiv ((digitsToNat N : ℕ) : ℚ) ((digitsToNat D : ℕ) : ℚ)) := by
  obtain ⟨c, r, rfl⟩ : ∃ c r, N = c :: r := by
    cases N with
    | nil => exact absurd rfl hNne
    | cons c r => exact ⟨c, r, rfl⟩
  have hc : isDigitChar c = true := hN c (List.mem_cons_self c r)
  have htake : ((c :: r) ++ '/' :: D).takeWhile isDigitChar = c :: r := by
    rw [takeWhile_append_all _ _ hN]
    simp [List.takeWhile_cons, show isDigitChar '/' = false by decide]
  have hdropD : D.dropWhile isSpaceChar = D :=
    dropWhile_self_of_head D fun d hd => digit_not_space (hD d hd)
  have htakeD : D.takeWhile isDigitChar = D := takeWhile_all _ hD
  have hr1 : ((c :: r) ++ '/' :: D).drop (c :: r).length = '/' :: D :=
    drop_len_append _ _
  obtain ⟨d, rd, hDsh⟩ : ∃ d rd, D = d :: rd := by
    cases D with
    | nil => exact absurd rfl hDne
    | cons d rd => exact ⟨d, rd, rfl⟩
  simp only [pyFracBody, pyFracSlash, List.cons_append, hc, Bool.true_or, Bool.not_true]
  rw [← List.cons_append, htake, hr1]
  simp only [List.dropWhile_cons, show isSpaceChar '/' = false by decide, Bool.false_eq_true,
    if_false, show ('/' == '/') = true by decide, if_true, hdropD, htakeD,
    List.drop_length, List.dropWhile_nil]
  rw [hDsh]
  simp only [List.isEmpty_cons, List.isEmpty_nil, Bool.not_true, Bool.false_eq_true, if_false]
  rw [← hDsh, if_neg hD0]

theorem splitSign_of_all_digits (N : Str)
    (h : ∀ c ∈ N, isDigitChar c = true) (hne : N ≠ []) (t : Str) :
    splitSign (N ++ t) = (false, N ++ t) := by
  obtain ⟨c, r, rfl⟩ : ∃ c r, N = c :: r := by
    cases N with
    | nil => exact absurd rfl hne
    | cons c r => exact ⟨c, r, rfl⟩
  rw [List.cons_append]
  exact splitSign_digit c (r ++ t) (h c (List.mem_cons_self c r))

theorem natAbs_cast_of_not_neg (q : ℚ) (h : ¬q.num < 0) :
    ((q.num.natAbs : ℕ) : ℚ) = ((q.num : ℤ) : ℚ) := by
  have h1 : ((q.num.natAbs : ℕ) : ℤ) = q.num := Int.natAbs_of_nonneg (not_lt.mp h)
  calc ((q.num.natAbs : ℕ) : ℚ) = (((q.num.natAbs : ℕ) : ℤ) : ℚ) := (Int.cast_natCast _).symm
    _ = ((q.num : ℤ) : ℚ) := by rw [h1]

theorem natAbs_cast_of_neg (q : ℚ) (h : q.num < 0) :
    ((q.num.natAbs : ℕ) : ℚ) = -((q.num : ℤ) : ℚ) := by
  have h1 : ((q.num.natAbs : ℕ) : ℤ) = -q.num := Int.ofNat_natAbs_of_nonpos (le_of_lt h)
  calc ((q.num.natAbs : ℕ) : ℚ) = (((q.num.natAbs : ℕ) : ℤ) : ℚ) := (Int.cast_natCast _).symm
    _ = ((-q.num : ℤ) : ℚ) := by rw [h1]
    _ = -((q.num : ℤ) : ℚ) := by rw [Int.cast_neg]

theorem q_eq_num_of_den_one (q : ℚ) (hden : q.den = 1) :
    ((q.num : ℤ) : ℚ) = q := by
  have h := Rat.num_div_den q
  rw [hden] at h
  simpa using h

theorem pyFraction_fractionStr (q : ℚ) : pyFraction (fractionStr q) = some q := by
  obtain ⟨hNv, hNd, hNne⟩ := natStr_spec q.num.natAbs
  obtain ⟨hDv, hDd, hDne⟩ := natStr_spec q.den
  have hD0 : digitsToNat (natStr q.den) ≠ 0 := by rw [hDv]; exact q.den_nz
  by_cases hden : q.den = 1
  · by_cases hneg : q.num < 0
    · have hfs : fractionStr q = '-' :: natStr q.num.natAbs := by
        unfold fractionStr intStr
        rw [if_pos hden, if_pos hneg]
      have hnos : ∀ c ∈ fractionStr q, isSpaceChar c = false := by
        rw [hfs]
        intro c hc
        rcases List.mem_cons.mp hc with h | h
        · subst h; decide
        · exact digit_not_space (hNd c h)
      unfold pyFraction
      rw [pyStrip_no_space _ hnos, hfs, splitSign_neg,
        pyFracBody_digits true _ hNd hNne, hNv]
      simp only [reduceIte]
      rw [natAbs_cast_of_neg q hneg, neg_neg, q_eq_num_of_den_one q hden]
    · have hfs : fractionStr q = natStr q.num.natAbs := by
        unfold fractionStr intStr
        rw [if_pos hden, if_neg hneg]
      have hnos : ∀ c ∈ fractionStr q, isSpaceChar c = false := by
        rw [hfs]
        intro c hc
        exact digit_not_space (hNd c hc)
      have hsplit : splitSign (natStr q.num.natAbs) = (false, natStr q.num.natAbs) := by
        have h := splitSign_of_all_digits _ hNd hNne []
        simpa using h
      unfold pyFraction
      rw [pyStrip_no_space _ hnos, hfs, hsplit,
        pyFracBody_digits false _ hNd hNne, hNv]
      simp only [Bool.false_eq_true, if_false]
      rw [natAbs_cast_of_not_neg q hneg, q_eq_num_of_den_one q hden]
  · by_cases hneg : q.num < 0
    · have hfs : fractionStr q = '-' :: (natStr q.num.natAbs ++ '/' :: natStr q.den) := by
        unfold fractionStr intStr
        rw [if_neg hden, if_pos hneg]
        rfl
      have hnos : ∀ c ∈ fractionStr q, isSpaceChar c = false := by
        rw [hfs]
        intro c hc
        rcases List.mem_cons.mp hc with h | h
        · subst h; decide
        · rcases List.mem_append.mp h with h2 | h2
          · exact digit_not_space (hNd c h2)
          · rcases List.mem_cons.mp h2 with h3 | h3
            · subst h3; decide
            · exact digit_not_space (hDd c h3)
      unfold pyFraction
      rw [pyStrip_no_space _ hnos, hfs, splitSign_neg,
        pyFracBody_slash true _ _ hNd hNne hDd hDne hD0, hNv, hDv]
      simp only [reduceIte]
      rw [qDiv_eq, natAbs_cast_of_neg q hneg]
      rw [neg_div, neg_neg, Rat.num_div_den]
    · have hfs : fractionStr q = natStr q.num.natAbs ++ '/' :: natStr q.den := by
        unfold fractionStr intStr
        rw [if_neg hden, if_neg hneg]
      have hnos : ∀ c ∈ fractionStr q, isSpaceChar c = false := by
        rw [hfs]
        intro c hc
        rcases List.mem_append.mp hc with h | h
        · exact digit_not_space (hNd c h)
        · rcases List.mem_cons.mp h with h2 | h2
          · subst h2; decide
          · exact digit_not_space (hDd c h2)
      unfold pyFraction
      rw [pyStrip_no_space _ hnos, hfs,
        splitSign_of_all_digits _ hNd hNne ('/' :: natStr q.den),
        pyFracBody_slash false _ _ hNd hNne hDd hDne hD0, hNv, hDv]
      simp only [Bool.false_eq_true, if_false]
      rw [qDiv_eq, natAbs_cast_of_not_neg q hneg, Rat.num_div_den]

theorem from_dict_to_dict (i : Ingredient) (h : i.quantity ≠ none) :
    Ingredient.from_dict (Ingredient.to_dict i) = .ok i := by
  obtain ⟨oq, u, nm, nt⟩ := i
  cases oq with
  | none => exact absurd rfl h
  | some q =>
    simp only [Ingredient.to_dict, Ingredient.from_dict, quantityStr, pyFraction_fractionStr]

theorem mapExcept_from_to_dict (is : List Ingredient)
    (h : ∀ i ∈ is, i.quantity ≠ none) :
    mapExcept Ingredient.from_dict (is.map Ingredient.to_dict) = .ok is := by
  induction is with
  | nil => rfl
  | cons i is ih =>
    simp only [List.map_cons, mapExcept,
      from_dict_to_dict i (h i (List.mem_cons_self i is)),
      ih fun j hj => h j (List.mem_cons_of_mem i hj)]

theorem recipe_from_to_dict (r : Recipe) (h : ∀ i ∈ r.ingredients, i.quantity ≠ none) :
    Recipe.from_dict (Recipe.to_dict r) = .ok r := by
  obtain ⟨nm, is⟩ := r
  simp only [Recipe.to_dict, Recipe.from_dict, mapExcept_from_to_dict is h]

/-- C1 counterexample: for the concrete one-recipe list whose single
ingredient has an absent quantity, writing the cache and reading it back
raises (`Fraction("None")` is unparsable), instead of reproducing the list
with the `"None"` sentinel as the claim states. -/
theorem claim_C1_counterexample :
    read_json (dump_json [⟨"r".toList, [⟨none, none, "salt".toList, none⟩]⟩]) =
      .error () := rfl

/-- C1 (amended): writing with `dump_json` and reading with `read_json`
reproduces the recipe list exactly whenever every ingredient's quantity is
present; an absent quantity is written as the literal string `"None"`, but
reading it back fails with an error (`Fraction("None")` raises `ValueError`)
rather than preserving the sentinel. -/
theorem claim_C1_roundtrip_amended (rs : List Recipe)
    (h : ∀ r ∈ rs, ∀ i ∈ r.ingredients, i.quantity ≠ none) :
    read_json (dump_json rs) = .ok rs := by
  induction rs with
  | nil => rfl
  | cons r rs ih =>
    simp only [dump_json, List.map_cons, read_json, mapExcept,
      recipe_from_to_dict r (h r (List.mem_cons_self r rs))]
    have h2 := ih fun r2 hr2 => h r2 (List.mem_cons_of_mem r hr2)
    simp only [read_json, dump_json] at h2
    rw [h2]

/-- C1 witness: a concrete one-recipe list with a present quantity
round-trips unchanged. -/
theorem claim_C1_witness :
    (∀ r ∈ [Recipe.mk ("taco soup".toList)
        [⟨some (mkRat 3 2), some ("cups".toList), "onion".toList, none⟩]],
      ∀ i ∈ r.ingredients, i.quantity ≠ none) ∧
      read_json (dump_json [Recipe.mk ("taco soup".toList)
        [⟨some (mkRat 3 2), some ("cups".toList), "onion".toList, none⟩]]) =
        .ok [Recipe.mk ("taco soup".toList)
          [⟨some (mkRat 3 2), some ("cups".toList), "onion".toList, none⟩]] :=
  ⟨by decide, claim_C1_roundtrip_amended _ (by decide)⟩

/-- C7: on a document with exactly one weekday block (weekday, title,
SERVINGS marker, INGREDIENTS section with two valid ingredient lines,
INSTRUCTIONS marker) `parse_text` returns exactly one `Recipe` whose two
ingredients appear in source order and whose title has internal whitespace
collapsed to single spaces; a two-block document yields the recipes in
document order; and a document with no matching block yields the empty list,
not an error. -/
theorem claim_C7_parse_text :
    parse_text ("MONDAY\nTACO  SOUP\nSERVINGS: 4\nINGREDIENTS\n" ++
        "2 cups chopped onion\n1/2 tsp salt\nINSTRUCTIONS\nCook everything.").toList =
      .ok [⟨"TACO SOUP".toList,
        [⟨some 2, some ("cups".toList), "chopped onion".toList, none⟩,
         ⟨some (mkRat 1 2), some ("tsp".toList), "salt".toList, none⟩]⟩] ∧
    parse_text ("MONDAY\nTACO  SOUP\nSERVINGS: 4\nINGREDIENTS\n" ++
        "2 cups chopped onion\n1/2 tsp salt\nINSTRUCTIONS\nCook everything.\n" ++
        "TUESDAY\nPAD THAI\nSERVINGS: 2\nINGREDIENTS\n1 lb noodles\nINSTRUCTIONS\nBoil.").toList =
      .ok [⟨"TACO SOUP".toList,
        [⟨some 2, some ("cups".toList), "chopped onion".toList, none⟩,
         ⟨some (mkRat 1 2), some ("tsp".toList), "salt".toList, none⟩]⟩,
       ⟨"PAD THAI".toList, [⟨some 1, some ("lb".toList), "noodles".toList, none⟩]⟩] ∧
    parse_text ("no recipes here".toList) = .ok [] :=
  ⟨rfl, rfl, rfl⟩

/-- C2: a line whose quantity token matches `[\d\.]+` but is not a valid
numeric literal makes `to_fraction` raise an uncaught `ValueError` inside
`Fraction(string)`, so the pipeline aborts fatally instead of skipping the
line: on the single kept line `"1.2.3 cups flour"`, `parse_ingredients`
raises (evaluates to `error`) rather than returning a list. -/
theorem claim_C2_fatal_error_on_bad_quantity :
    parse_ingredients ("1.2.3 cups flour".toList) = .error () ∧
      parse_ingredient ("1.2.3 cups flour".toList) = .error () ∧
      to_fraction ("1.2.3".toList) = none :=
  ⟨rfl, rfl, rfl⟩

end Yumwiz
